import Mathlib

/-!
# Terraform log parser (`backend/main.go`): ingestion, merge and query engine

A shallow embedding of the core of `backend/main.go`:
`classifyEntry`, `parseLine`, `updateStats`, `ParseStream`, `filterLogs`,
`parseTimeFlexible`, `calculateFilteredStats` and the corpus update of
`handleAPILogs`, followed by theorems about them.

Modelling conventions.

* A Go `string` is a Lean `String`; the functions of package `strings` that the
  program calls work on the list of characters of the string.
* A Go `time.Time` is the instant it denotes, an `Int` counting nanoseconds from
  `0001-01-01T00:00:00Z`, so that the zero value `time.Time{}` is `0`,
  `t.Before(u)` is `t < u` and `t.After(u)` is `t > u`.
* A Go `map[string]int` is a list of key/count pairs without repeated keys. The
  maps of the program are all created by `make`, so a nil map is not modelled.
  The order of the pairs stands for no order of the Go map: maps are compared
  through their lookups.
* Counters of Go type `int` are natural numbers: they start at zero and are only
  incremented, once per input line at most.
* The standard-library functions whose behaviour rests on large tables or
  grammars (`json.Unmarshal`, `time.Parse`, `strings.EqualFold`,
  `strings.ToLower`) are the fields of a `Stdlib` value that every function of
  the program takes as its first argument; theorems hold for every `Stdlib`.
  `goStd` is a concrete one used to evaluate the program on sample inputs.
* The input of `ParseStream` is the list of the lines of the stream, the text
  between its line feeds. The default `bufio.Scanner` that reads them holds a
  token in a buffer of `bufio.MaxScanTokenSize` bytes: on a line of that many
  bytes or more `scanner.Scan()` returns false, as it does at the end of the
  input, and `ParseStream` never reads `scanner.Err()`.
* Console output (`fmt.Printf`) is not modelled.
-/

namespace TerraformLogParser

/-! ## Strings -/

/-- Go `strings.Contains(s, substr)`: `substr` occurs in `s` as a contiguous
block; the empty string occurs in every string. -/
def containsChars : List Char → List Char → Bool
  | [], sub => sub.isEmpty
  | c :: s, sub => sub.isPrefixOf (c :: s) || containsChars s sub

/-- Go `strings.Contains`. -/
def contains (s substr : String) : Bool :=
  containsChars s.data substr.data

/-- Go `unicode.IsSpace`: the white-space characters of Unicode. -/
def isSpace (c : Char) : Bool :=
  let n := c.toNat
  n == 0x09 || n == 0x0A || n == 0x0B || n == 0x0C || n == 0x0D || n == 0x20 ||
  n == 0x85 || n == 0xA0 || n == 0x1680 || (0x2000 ≤ n && n ≤ 0x200A) ||
  n == 0x2028 || n == 0x2029 || n == 0x202F || n == 0x205F || n == 0x3000

/-- Go `strings.TrimSpace`: drops leading and trailing white space. -/
def trimSpace (s : String) : String :=
  String.mk ((s.data.dropWhile isSpace).reverse.dropWhile isSpace).reverse

/-! ## Maps from strings to counters -/

/-- A Go `map[string]int`: key/count pairs, each key at most once. -/
structure CountMap where
  entries : List (String × Nat)
  nodup : (entries.map Prod.fst).Nodup

namespace CountMap

/-- The Go expression `make(map[string]int)`. -/
def empty : CountMap := ⟨[], List.nodup_nil⟩

/-- The two-valued lookup `v, ok := m[k]`, as an option. -/
def find (m : CountMap) (k : String) : Option Nat :=
  m.entries.lookup k

/-- The Go expression `m[k]`: the stored count, `0` for a missing key. -/
def get (m : CountMap) (k : String) : Nat :=
  (m.find k).getD 0

/-- Adds `c` to the count stored under `k` in a list of pairs, appending the
pair when the key is missing. -/
def addEntry (k : String) (c : Nat) : List (String × Nat) → List (String × Nat)
  | [] => [(k, c)]
  | (k', n) :: rest => if k' = k then (k', n + c) :: rest else (k', n) :: addEntry k c rest

/-- The Go statement `m[k] += c` (and `m[k]++` for `c = 1`). -/
def add (m : CountMap) (k : String) (c : Nat) : CountMap :=
  ⟨addEntry k c m.entries, by
    have keys : ∀ l : List (String × Nat), (addEntry k c l).map Prod.fst =
        if k ∈ l.map Prod.fst then l.map Prod.fst else l.map Prod.fst ++ [k] := by
      intro l
      induction l with
      | nil => simp [addEntry]
      | cons e rest ih =>
        obtain ⟨k', n⟩ := e
        by_cases h : k' = k
        · subst h; simp [addEntry]
        · have h' : ¬ k = k' := fun e => h e.symm
          simp only [addEntry, h, if_false, List.map_cons, ih, List.mem_cons, h', false_or]
          split <;> simp
    rw [keys]
    split
    · exact m.nodup
    · rename_i hk
      rw [List.nodup_append]
      refine ⟨m.nodup, List.nodup_singleton k, ?_⟩
      intro a ha hb
      simp at hb
      subst hb
      exact hk ha⟩

/-- The Go loop `for k, c := range src { dst[k] += c }`, visiting the keys of
`src` in the order of its entries. -/
def addAll (dst src : CountMap) : CountMap :=
  src.entries.foldl (fun acc e => acc.add e.1 e.2) dst

end CountMap

/-! ## Data model -/

/-- An instant: nanoseconds from `0001-01-01T00:00:00Z`; the zero value of
`time.Time` is `0`. -/
abbrev Time := Int

/-- Go `type TerraformLog struct`. -/
structure TerraformLog where
  Level : String := ""
  Message : String := ""
  Module : String := ""
  Caller : String := ""
  Timestamp : Time := 0
  TfReqID : String := ""
  TfRPC : String := ""
  TfProtoVersion : String := ""
  TfProviderAddr : String := ""
  EntryType : String := ""
  RawJSON : String := ""
deriving DecidableEq, Repr

/-- Go `type ParseError struct`; the `error` value is kept as its message. -/
structure ParseError where
  LineNumber : Nat
  Line : String
  Error : String
deriving DecidableEq, Repr

/-- Go `type ParseStats struct`. -/
structure ParseStats where
  TotalLines : Nat := 0
  SuccessLines : Nat := 0
  ErrorLines : Nat := 0
  ByLevel : CountMap := CountMap.empty
  ByModule : CountMap := CountMap.empty
  HasHTTPRequests : Bool := false

/-- Go `type ParseResult struct`. -/
structure ParseResult where
  Stats : ParseStats := {}
  Logs : List TerraformLog := []
  Errors : List ParseError := []

/-- Go `type LogParser struct`. -/
structure LogParser where
  stats : ParseStats

/-- A value stored in the `map[string]interface{}` that `json.Unmarshal` fills:
a JSON string, or a JSON value of another kind (number, boolean, null, array,
object). -/
inductive JVal where
  | str (s : String)
  | other
deriving DecidableEq, Repr

/-- The decoded object `map[string]interface{}`, each key at most once in use:
the first pair of a key is the one looked up. -/
abbrev RawData := List (String × JVal)

/-- The standard-library functions the program calls that are kept abstract. -/
structure Stdlib where
  /-- `json.Unmarshal([]byte(line), &rawData)`: the decoded object, or the
  message of the error. -/
  jsonUnmarshal : String → Except String RawData
  /-- `time.Parse(layout, value)`: the instant, or `none` on error. -/
  timeParse : String → String → Option Time
  /-- `strings.EqualFold(s, t)`. -/
  equalFold : String → String → Bool
  /-- `strings.ToLower(s)`. -/
  toLower : String → String

/-- Go `NewLogParser`. -/
def NewLogParser : LogParser :=
  { stats := { ByLevel := CountMap.empty, ByModule := CountMap.empty } }

/-- Go `getString`: the value under `key` when it exists and is a string,
else the empty string. -/
def getString (data : RawData) (key : String) : String :=
  match data.lookup key with
  | some (JVal.str s) => s
  | _ => ""

/-- Go `(*LogParser).classifyEntry`: returns the parser (whose
`HasHTTPRequests` flag the first branch sets) and the category. -/
def classifyEntry (p : LogParser) (log : TerraformLog) (_rawData : RawData) :
    LogParser × String :=
  if log.TfReqID ≠ "" then
    ({ p with stats := { p.stats with HasHTTPRequests := true } }, "http_request")
  else if contains log.Message "GRPCProvider" || log.TfRPC ≠ "" then
    (p, "grpc_request")
  else if log.Module ≠ "" && contains log.Module "provider" then
    (p, "provider")
  else
    (p, "general")

/-- The constant `time.RFC3339`. -/
def RFC3339 : String := "2006-01-02T15:04:05Z07:00"

/-- Go `(*LogParser).parseLine`: the parser after the call, and the record or
the error message. -/
def parseLine (lib : Stdlib) (p : LogParser) (line : String) :
    LogParser × Except String TerraformLog :=
  match lib.jsonUnmarshal line with
  | .error err => (p, .error ("invalid JSON: " ++ err))
  | .ok rawData =>
    let logEntry : TerraformLog :=
      { Level := getString rawData "@level"
        Message := getString rawData "@message"
        Module := getString rawData "@module"
        Caller := getString rawData "@caller"
        TfReqID := getString rawData "tf_req_id"
        TfRPC := getString rawData "tf_rpc"
        TfProtoVersion := getString rawData "tf_proto_version"
        TfProviderAddr := getString rawData "tf_provider_addr" }
    let tsStr := getString rawData "@timestamp"
    let logEntry :=
      if tsStr ≠ "" then
        match lib.timeParse RFC3339 tsStr with
        | some timestamp => { logEntry with Timestamp := timestamp }
        | none => logEntry
      else logEntry
    let r := classifyEntry p logEntry rawData
    let logEntry := { logEntry with EntryType := r.2 }
    let logEntry := { logEntry with RawJSON := line }
    (r.1, .ok logEntry)

/-- Go `(*LogParser).updateStats`. -/
def updateStats (p : LogParser) (logEntry : TerraformLog) : LogParser :=
  let p := { p with stats := { p.stats with ByLevel := p.stats.ByLevel.add logEntry.Level 1 } }
  if logEntry.Module ≠ "" then
    { p with stats := { p.stats with ByModule := p.stats.ByModule.add logEntry.Module 1 } }
  else p

/-- The constant `bufio.MaxScanTokenSize`, the buffer size of a default
`bufio.Scanner`. -/
def MaxScanTokenSize : Nat := 64 * 1024

/-- The number of bytes of the UTF-8 encoding of a character. -/
def utf8Size (c : Char) : Nat :=
  if c.toNat < 0x80 then 1 else if c.toNat < 0x800 then 2 else if c.toNat < 0x10000 then 3 else 4

/-- Go `len(s)`: the number of bytes of a string. -/
def byteLen (s : String) : Nat :=
  (s.data.map utf8Size).sum

/-- Package `bufio`, `dropCR` of `ScanLines`: the line without one carriage
return at its end. -/
def dropCRChars : List Char → List Char
  | [] => []
  | c :: cs =>
    match cs with
    | [] => if c.toNat = 13 then [] else [c]
    | _ :: _ => c :: dropCRChars cs

/-- The text `scanner.Text()` of a line that the scanner yields. -/
def dropCR (s : String) : String :=
  String.mk (dropCRChars s.data)

/-- The `for scanner.Scan()` loop of `ParseStream`: the lines of the input still
to read, the parser, the result so far and `lineNumber`. A line that does not
fit the buffer of the scanner makes `scanner.Scan()` return false, which ends
the loop like the end of the input. -/
def parseStreamLoop (lib : Stdlib) :
    List String → LogParser → ParseResult → Nat → LogParser × ParseResult
  | [], p, result, _ => (p, result)
  | text :: rest, p, result, lineNumber =>
    if MaxScanTokenSize ≤ byteLen text then (p, result)
    else
      let lineNumber := lineNumber + 1
      let line := trimSpace (dropCR text)
      let p := { p with stats := { p.stats with TotalLines := p.stats.TotalLines + 1 } }
      if line = "" then
        parseStreamLoop lib rest p result lineNumber
      else
        match parseLine lib p line with
        | (p, .error err) =>
          let result := { result with
            Errors := result.Errors ++ [{ LineNumber := lineNumber, Line := line, Error := err }] }
          let p := { p with stats := { p.stats with ErrorLines := p.stats.ErrorLines + 1 } }
          parseStreamLoop lib rest p result lineNumber
        | (p, .ok logEntry) =>
          let result := { result with Logs := result.Logs ++ [logEntry] }
          let p := { p with stats := { p.stats with SuccessLines := p.stats.SuccessLines + 1 } }
          let p := updateStats p logEntry
          parseStreamLoop lib rest p result lineNumber

/-- Go `(*LogParser).ParseStream`, on the lines of the stream: the parser after
the call and the result. -/
def ParseStream (lib : Stdlib) (p : LogParser) (lines : List String) :
    LogParser × ParseResult :=
  let r := parseStreamLoop lib lines p {} 0
  (r.1, { r.2 with Stats := r.1.stats })

/-- Go `strconv.Atoi` for a 64-bit `int`: an optional sign, then one or more
decimal digits, the value within the range of `int`; `none` on error. -/
def atoiDigits : List Char → Nat → Option Nat
  | [], acc => some acc
  | c :: cs, acc => if c.isDigit then atoiDigits cs (acc * 10 + (c.toNat - 48)) else none

/-- Go `strconv.Atoi`. -/
def atoi (s : String) : Option Int :=
  let r : Bool × List Char :=
    match s.data with
    | '-' :: ds => (true, ds)
    | '+' :: ds => (false, ds)
    | ds => (false, ds)
  if r.2.isEmpty then none
  else
    match atoiDigits r.2 0 with
    | none => none
    | some n =>
      let v : Int := if r.1 then -(n : Int) else (n : Int)
      if -(2 ^ 63 : Int) ≤ v ∧ v < (2 ^ 63 : Int) then some v else none

/-- The slice `formats` of `parseTimeFlexible`. -/
def formats : List String :=
  [ RFC3339,
    "2006-01-02T15:04:05",
    "2006-01-02T15:04",
    "2006-01-02 15:04:05",
    "2006-01-02 15:04",
    "2006-01-02",
    "15:04:05",
    "15:04" ]

/-- Go `parseTimeFlexible`: the result of the first format that parses, `none`
for the error return. -/
def parseTimeFlexible (lib : Stdlib) (timeStr : String) : Option Time :=
  formats.findSome? (fun format => lib.timeParse format timeStr)

/-- The `for _, log := range logs` loop of `filterLogs`, with the slice
`filtered` built so far. -/
def filterLoop (lib : Stdlib)
    (levelFilter sinceFilter untilFilter searchFilter moduleFilter : String) :
    List TerraformLog → List TerraformLog → List TerraformLog
  | [], filtered => filtered
  | log :: rest, filtered =>
    let next := filterLoop lib levelFilter sinceFilter untilFilter searchFilter moduleFilter rest
    if levelFilter ≠ "" && !lib.equalFold log.Level levelFilter then next filtered
    else if moduleFilter ≠ "" && !lib.equalFold log.Module moduleFilter then next filtered
    else if sinceFilter ≠ "" &&
        (match parseTimeFlexible lib sinceFilter with
          | some sinceTime => decide (log.Timestamp < sinceTime)
          | none => false) then next filtered
    else if untilFilter ≠ "" &&
        (match parseTimeFlexible lib untilFilter with
          | some untilTime => decide (log.Timestamp > untilTime)
          | none => false) then next filtered
    else if searchFilter ≠ "" &&
        !contains (lib.toLower log.Message) (lib.toLower searchFilter) then next filtered
    else next (filtered ++ [log])

/-- Go `filterLogs`. -/
def filterLogs (lib : Stdlib) (logs : List TerraformLog)
    (levelFilter sinceFilter untilFilter searchFilter moduleFilter limitStr : String) :
    List TerraformLog :=
  if logs.length = 0 then logs
  else
    let filtered :=
      filterLoop lib levelFilter sinceFilter untilFilter searchFilter moduleFilter logs []
    if limitStr ≠ "" then
      match atoi limitStr with
      | some limit =>
        if limit > 0 ∧ limit < (filtered.length : Int) then filtered.take limit.toNat
        else filtered
      | none => filtered
    else filtered

/-- The loop body of `calculateFilteredStats`. -/
def calcStep (stats : ParseStats) (log : TerraformLog) : ParseStats :=
  let stats := { stats with TotalLines := stats.TotalLines + 1 }
  let stats := { stats with SuccessLines := stats.SuccessLines + 1 }
  let stats :=
    if log.Level ≠ "" then { stats with ByLevel := stats.ByLevel.add log.Level 1 } else stats
  let stats :=
    if log.Module ≠ "" then { stats with ByModule := stats.ByModule.add log.Module 1 } else stats
  if log.TfReqID ≠ "" then { stats with HasHTTPRequests := true } else stats

/-- Go `calculateFilteredStats`. -/
def calculateFilteredStats (logs : List TerraformLog) : ParseStats :=
  logs.foldl calcStep { ByLevel := CountMap.empty, ByModule := CountMap.empty }

/-- The corpus update of `handleAPILogs` (`if currentResult == nil ... else
...`): the global `currentResult` before, as an option, and the new `result`;
returns the corpus that `currentResult` points to afterwards. -/
def updateCurrentResult (currentResult : Option ParseResult) (result : ParseResult) :
    ParseResult :=
  match currentResult with
  | none => result
  | some cur =>
    { Logs := cur.Logs ++ result.Logs
      Errors := cur.Errors ++ result.Errors
      Stats :=
        { cur.Stats with
          TotalLines := cur.Stats.TotalLines + result.Stats.TotalLines
          SuccessLines := cur.Stats.SuccessLines + result.Stats.SuccessLines
          ErrorLines := cur.Stats.ErrorLines + result.Stats.ErrorLines
          ByLevel := cur.Stats.ByLevel.addAll result.Stats.ByLevel
          ByModule := cur.Stats.ByModule.addAll result.Stats.ByModule } }

/-- One `POST /api/logs` after the body has been split into lines: a new
parser reads the lines and the result goes into the corpus. -/
def postLogs (lib : Stdlib) (currentResult : Option ParseResult) (lines : List String) :
    ParseResult :=
  let parser := NewLogParser
  let result := (ParseStream lib parser lines).2
  updateCurrentResult currentResult result

/-- The corpus after a first ingestion and then the further ones, in order. -/
def corpusAfter (lib : Stdlib) (first : List String) (more : List (List String)) :
    ParseResult :=
  more.foldl (fun cur lines => postLogs lib (some cur) lines) (postLogs lib none first)

/-! ## The properties, in the words of the specification -/

/-- The category of a record by the precedence rules: a request id first, then
the gRPC marker or an RPC name, then a provider module, else general. -/
def categoryOf (log : TerraformLog) : String :=
  if log.TfReqID ≠ "" then "http_request"
  else if "GRPCProvider".data <:+: log.Message.data ∨ log.TfRPC ≠ "" then "grpc_request"
  else if log.Module ≠ "" ∧ "provider".data <:+: log.Module.data then "provider"
  else "general"

/-- A record satisfies every supplied criterion: level and module equal to
their filters up to case, timestamp not before the parsed `since` bound and not
after the parsed `until` bound, lower-cased message containing the lower-cased
search string. An empty filter is not a criterion, and neither is a bound that
does not parse. -/
def satisfiesFilters (lib : Stdlib)
    (levelFilter sinceFilter untilFilter searchFilter moduleFilter : String)
    (log : TerraformLog) : Bool :=
  (levelFilter = "" || lib.equalFold log.Level levelFilter) &&
  (moduleFilter = "" || lib.equalFold log.Module moduleFilter) &&
  (sinceFilter = "" ||
    match parseTimeFlexible lib sinceFilter with
    | some sinceTime => decide (sinceTime ≤ log.Timestamp)
    | none => true) &&
  (untilFilter = "" ||
    match parseTimeFlexible lib untilFilter with
    | some untilTime => decide (log.Timestamp ≤ untilTime)
    | none => true) &&
  (searchFilter = "" ||
    decide ((lib.toLower searchFilter).data <:+: (lib.toLower log.Message).data))

/-- The texts that the scanner yields for the lines of a stream: those of the
lines before the first one of `MaxScanTokenSize` bytes or more. -/
def scannerTexts : List String → List String
  | [] => []
  | text :: rest =>
    if MaxScanTokenSize ≤ byteLen text then [] else dropCR text :: scannerTexts rest

/-- Whether `json.Unmarshal` accepts the line. -/
def decodes (lib : Stdlib) (line : String) : Bool :=
  match lib.jsonUnmarshal line with
  | .ok _ => true
  | .error _ => false

/-- The record of a line of the stream: the one the line decoder builds from
the trimmed text when that is not blank and decodes. -/
def recordOfLine (lib : Stdlib) (text : String) : Option TerraformLog :=
  let line := trimSpace text
  if line = "" then none
  else
    match lib.jsonUnmarshal line, (parseLine lib NewLogParser line).2 with
    | .ok _, .ok logEntry => some logEntry
    | _, _ => none

/-- The error entry of a numbered line of the stream: the number and the
trimmed text, when that is not blank and fails to decode. -/
def errorOfLine (lib : Stdlib) (numbered : Nat × String) : Option ParseError :=
  let line := trimSpace numbered.2
  if line = "" then none
  else
    match lib.jsonUnmarshal line with
    | .error err =>
      some { LineNumber := numbered.1, Line := line, Error := "invalid JSON: " ++ err }
    | .ok _ => none

/-- The count of a key in a merged map: the sum when both maps have the key,
the count of the one that has it otherwise, none when neither has it. -/
def addCounts : Option Nat → Option Nat → Option Nat
  | some a, some b => some (a + b)
  | some a, none => some a
  | none, some b => some b
  | none, none => none

/-! ## A concrete standard library for sample inputs -/

/-- An element of a `time.Parse` layout: the elements that occur in the layouts
of `formats`, any other character being literal text. -/
inductive Chunk where
  | lit (c : Char)
  | longYear
  | zeroMonth
  | zeroDay
  | hour
  | zeroMinute
  | zeroSecond
  | isoColonTZ
deriving DecidableEq, Repr

/-- Splits a layout into its elements (`2006`, `01`, `02`, `15`, `04`, `05`,
`Z07:00`, literal characters); the number says how many characters belong to
the element just recognised and are to be passed over. -/
def layoutChunksFrom : Nat → List Char → List Chunk
  | _, [] => []
  | n + 1, _ :: cs => layoutChunksFrom n cs
  | 0, c :: cs =>
    if c = '2' ∧ cs.take 3 = [ '0', '0', '6'] then Chunk.longYear :: layoutChunksFrom 3 cs
    else if c = '0' ∧ cs.take 1 = [ '1'] then Chunk.zeroMonth :: layoutChunksFrom 1 cs
    else if c = '0' ∧ cs.take 1 = [ '2'] then Chunk.zeroDay :: layoutChunksFrom 1 cs
    else if c = '1' ∧ cs.take 1 = [ '5'] then Chunk.hour :: layoutChunksFrom 1 cs
    else if c = '0' ∧ cs.take 1 = [ '4'] then Chunk.zeroMinute :: layoutChunksFrom 1 cs
    else if c = '0' ∧ cs.take 1 = [ '5'] then Chunk.zeroSecond :: layoutChunksFrom 1 cs
    else if c = 'Z' ∧ cs.take 5 = [ '0', '7', ':', '0', '0'] then
      Chunk.isoColonTZ :: layoutChunksFrom 5 cs
    else Chunk.lit c :: layoutChunksFrom 0 cs

/-- The fields that `time.Parse` collects while it reads a value. -/
structure Fields where
  year : Nat := 0
  month : Option Nat := none
  day : Option Nat := none
  hour : Nat := 0
  min : Nat := 0
  sec : Nat := 0
  nsec : Nat := 0
  zoneOffset : Option Int := none
deriving DecidableEq, Repr

/-- The value of a decimal digit. -/
def digit (c : Char) : Nat := c.toNat - 48

/-- Package `time`, `getnum(s, fixed)`: a number of one or two digits, of two
digits exactly when `fixed`. -/
def getnum (s : List Char) ( fixed : Bool) : Option (Nat × List Char) :=
  match s with
  | [] => none
  | c :: rest =>
    if !c.isDigit then none
    else
      match rest with
      | d :: rest2 =>
        if d.isDigit then some (digit c * 10 + digit d, rest2)
        else if fixed then none else some (digit c, rest)
      | [] => if fixed then none else some (digit c, rest)

/-- The digits of a fraction of a second after the `.` or `,`: the first nine
count, scaled to nanoseconds. -/
def fracNanos (ds : List Char) : Nat :=
  let used := ds.take 9
  used.foldl (fun acc c => acc * 10 + digit c) 0 * 10 ^ (9 - used.length)

/-- Reads a value along the elements of a layout, as the loop of `time.Parse`
does. -/
def parseChunks : List Chunk → List Char → Fields → Option Fields
  | [], value, f => if value.isEmpty then some f else none
  | Chunk.lit c :: cs, value, f =>
    if c = ' ' then
      match value with
      | [] => parseChunks cs [] f
      | v :: _ => if v ≠ ' ' then none else parseChunks cs (value.dropWhile (· = ' ')) f
    else
      match value with
      | [] => none
      | v :: vs => if v = c then parseChunks cs vs f else none
  | Chunk.longYear :: cs, value, f =>
    if value.length < 4 ∨ !(value.take 4).all Char.isDigit then none
    else
      parseChunks cs (value.drop 4)
        { f with year := (value.take 4).foldl (fun acc c => acc * 10 + digit c) 0 }
  | Chunk.zeroMonth :: cs, value, f =>
    match getnum value true with
    | none => none
    | some (month, value) =>
      if month = 0 ∨ 12 < month then none
      else parseChunks cs value { f with month := some month }
  | Chunk.zeroDay :: cs, value, f =>
    match getnum value true with
    | none => none
    | some (day, value) => parseChunks cs value { f with day := some day }
  | Chunk.hour :: cs, value, f =>
    match getnum value false with
    | none => none
    | some (hour, value) =>
      if 24 ≤ hour then none else parseChunks cs value { f with hour := hour }
  | Chunk.zeroMinute :: cs, value, f =>
    match getnum value true with
    | none => none
    | some (min, value) =>
      if 60 ≤ min then none else parseChunks cs value { f with min := min }
  | Chunk.zeroSecond :: cs, value, f =>
    match getnum value true with
    | none => none
    | some (sec, value) =>
      if 60 ≤ sec then none
      else
        match value with
        | p :: d :: rest =>
          if (p = '.' ∨ p = ',') ∧ d.isDigit then
            let ds := (d :: rest).takeWhile Char.isDigit
            parseChunks cs ((d :: rest).dropWhile Char.isDigit)
              { f with sec := sec, nsec := fracNanos ds }
          else parseChunks cs value { f with sec := sec }
        | _ => parseChunks cs value { f with sec := sec }
  | Chunk.isoColonTZ :: cs, value, f =>
    match value with
    | 'Z' :: rest => parseChunks cs rest { f with zoneOffset := some 0 }
    | sign :: h1 :: h2 :: colon :: m1 :: m2 :: rest =>
      if colon ≠ ':' then none
      else
        match getnum [h1, h2] true, getnum [m1, m2] true with
        | some (hr, _), some (mm, _) =>
          if 24 < hr ∨ 60 < mm then none
          else if sign = '+' then
            parseChunks cs rest { f with zoneOffset := some (((hr * 60 + mm) * 60 : Nat) : Int) }
          else if sign = '-' then
            parseChunks cs rest { f with zoneOffset := some (-(((hr * 60 + mm) * 60 : Nat) : Int)) }
          else none
        | _, _ => none
    | _ => none

/-- Package `time`, `isLeap`. -/
def isLeap (year : Nat) : Bool :=
  year % 4 == 0 && (year % 100 != 0 || year % 400 == 0)

/-- Package `time`, `daysIn`. -/
def daysIn (month year : Nat) : Nat :=
  if month = 2 then (if isLeap year then 29 else 28)
  else if month = 4 ∨ month = 6 ∨ month = 9 ∨ month = 11 then 30
  else 31

/-- Days from `0001-01-01` to the first day of the month of the year. -/
def daysBefore (year month : Nat) : Int :=
  let y : Int := (year : Int) - 1
  let beforeYear : Int := 365 * y + y / 4 - y / 100 + y / 400
  let beforeMonth : Nat := ((List.range (month - 1)).map (fun m => daysIn (m + 1) year)).sum
  beforeYear + beforeMonth

/-- The instant of the fields read, as `time.Date` computes it: months and days
default to `1`, a day the month does not have is an error, a value without
zone is in UTC. -/
def fieldsInstant (f : Fields) : Option Time :=
  let month := f.month.getD 1
  let day := f.day.getD 1
  if day < 1 ∨ daysIn month f.year < day then none
  else
    let days : Int := daysBefore f.year month + ((day - 1 : Nat) : Int)
    let secs : Int := ((days * 24 + f.hour) * 60 + f.min) * 60 + f.sec - f.zoneOffset.getD 0
    some (secs * 1000000000 + f.nsec)

/-- A model of `time.Parse(layout, value)` for layouts made of the elements of
`Chunk`, which covers the layouts of `formats`. -/
def goTimeParse (layout value : String) : Option Time :=
  match parseChunks (layoutChunksFrom 0 layout.data) value.data {} with
  | none => none
  | some f => fieldsInstant f

/-- A model of `strings.ToLower`, exact on ASCII text: the letters `A` to `Z`
become `a` to `z`. -/
def asciiToLower (s : String) : String :=
  String.mk (s.data.map Char.toLower)

/-- A model of `strings.EqualFold`, exact on ASCII text: equality up to the case
of the letters `A` to `Z`. -/
def asciiEqualFold (s t : String) : Bool :=
  s.data.map Char.toLower == t.data.map Char.toLower

/-- The characters of a JSON string up to its closing quote, and the text after
it; no escape sequences and no control characters. -/
def jsonStringBody : List Char → Option (List Char × List Char)
  | [] => none
  | c :: rest =>
    if c = '"' then some ([], rest)
    else if c.toNat = 92 ∨ c.toNat < 32 then none
    else
      match jsonStringBody rest with
      | some (body, after) => some (c :: body, after)
      | none => none

/-- The members `"key":"value"` of a JSON object, separated by commas, up to the
closing brace that ends the text; a later pair of a key comes first in the
result, so that it is the one looked up. -/
def jsonMembers : Nat → List Char → RawData → Option RawData
  | 0, _, _ => none
  | fuel + 1, text, acc =>
    match text with
    | '"' :: afterQuote =>
      match jsonStringBody afterQuote with
      | some (key, ':' :: '"' :: afterColon) =>
        match jsonStringBody afterColon with
        | some (value, after) =>
          let acc := (String.mk key, JVal.str (String.mk value)) :: acc
          if after = [ '}'] then some acc
          else
            match after with
            | ',' :: more => jsonMembers fuel more acc
            | _ => none
        | none => none
      | _ => none
    | _ => none

/-- A model of `json.Unmarshal` into a `map[string]interface{}` for the fragment
of JSON the sample inputs use: an object `\x7b"k":"v",...\x7d` of string
members written without white space or escapes is decoded; any other text is
reported as a syntax error (for JSON outside the fragment this differs from the
library). -/
def sampleUnmarshal (line : String) : Except String RawData :=
  match line.data with
  | '{' :: rest =>
    if rest = [ '}'] then .ok []
    else
      match jsonMembers rest.length rest [] with
      | some data => .ok data
      | none => .error "syntax error"
  | _ => .error "syntax error"

/-- The concrete standard library of the sample inputs. -/
def goStd : Stdlib :=
  { jsonUnmarshal := sampleUnmarshal
    timeParse := goTimeParse
    equalFold := asciiEqualFold
    toLower := asciiToLower }

/-! ## Lemmas on strings and on the query loop -/

theorem containsChars_iff (s sub : List Char) : containsChars s sub = true ↔ sub <:+: s := by
  induction s with
  | nil => cases sub <;> simp [containsChars]
  | cons c s ih =>
    simp only [containsChars, Bool.or_eq_true, ih, List.isPrefixOf_iff_prefix,
      List.infix_cons_iff]

theorem contains_iff (s substr : String) : contains s substr = true ↔ substr.data <:+: s.data :=
  containsChars_iff s.data substr.data

theorem filterLoop_eq (lib : Stdlib) (lv si un se mo : String) (logs filtered : List TerraformLog) :
    filterLoop lib lv si un se mo logs filtered
      = filtered ++ logs.filter (satisfiesFilters lib lv si un se mo) := by
  induction logs generalizing filtered with
  | nil => simp [filterLoop]
  | cons log rest ih =>
    have hc : contains (lib.toLower log.Message) (lib.toLower se) = true ↔
        (lib.toLower se).data <:+: (lib.toLower log.Message).data := contains_iff _ _
    have key : satisfiesFilters lib lv si un se mo log =
      (!(decide (lv ≠ "") && !lib.equalFold log.Level lv) &&
       !(decide (mo ≠ "") && !lib.equalFold log.Module mo) &&
       !(decide (si ≠ "") && (match parseTimeFlexible lib si with
          | some sinceTime => decide (log.Timestamp < sinceTime)
          | none => false)) &&
       !(decide (un ≠ "") && (match parseTimeFlexible lib un with
          | some untilTime => decide (log.Timestamp > untilTime)
          | none => false)) &&
       !(decide (se ≠ "") && !contains (lib.toLower log.Message) (lib.toLower se))) := by
      unfold satisfiesFilters
      rw [Bool.eq_iff_iff] at *
      cases parseTimeFlexible lib si <;> cases parseTimeFlexible lib un <;>
        simp [hc, not_lt] <;> tauto
    rw [List.filter_cons, key]
    simp only [filterLoop, ih]
    generalize (decide (lv ≠ "") && !lib.equalFold log.Level lv) = c1
    generalize (decide (mo ≠ "") && !lib.equalFold log.Module mo) = c2
    generalize (decide (si ≠ "") && (match parseTimeFlexible lib si with
          | some sinceTime => decide (log.Timestamp < sinceTime)
          | none => false)) = c3
    generalize (decide (un ≠ "") && (match parseTimeFlexible lib un with
          | some untilTime => decide (log.Timestamp > untilTime)
          | none => false)) = c4
    generalize (decide (se ≠ "") && !contains (lib.toLower log.Message) (lib.toLower se)) = c5
    cases c1 <;> cases c2 <;> cases c3 <;> cases c4 <;> cases c5 <;> simp

theorem atoi_empty : atoi "" = none := by decide

theorem filterLogs_eq (lib : Stdlib) (logs : List TerraformLog)
    (lv si un se mo limitStr : String) :
    filterLogs lib logs lv si un se mo limitStr =
      match atoi limitStr with
      | some limit =>
        if 0 < limit ∧ limit < ((logs.filter (satisfiesFilters lib lv si un se mo)).length : Int)
        then (logs.filter (satisfiesFilters lib lv si un se mo)).take limit.toNat
        else logs.filter (satisfiesFilters lib lv si un se mo)
      | none => logs.filter (satisfiesFilters lib lv si un se mo) := by
  cases logs with
  | nil => cases atoi limitStr <;> simp [filterLogs]
  | cons log rest =>
    by_cases hl : limitStr = ""
    · subst hl
      simp [filterLogs, filterLoop_eq, atoi_empty]
    · simp only [filterLogs, filterLoop_eq, List.nil_append, List.length_cons,
        Nat.add_one_ne_zero, if_false, ne_eq, hl, not_false_eq_true, if_true, gt_iff_lt]

/-! ## Lemmas on ingestion -/

theorem classifyEntry_fst (p : LogParser) (log : TerraformLog) (rawData : RawData) :
    (classifyEntry p log rawData).1 =
      if log.TfReqID ≠ "" then { p with stats := { p.stats with HasHTTPRequests := true } }
      else p := by
  unfold classifyEntry
  split_ifs <;> rfl

theorem classifyEntry_snd (p q : LogParser) (log : TerraformLog) (rawData : RawData) :
    (classifyEntry p log rawData).2 = (classifyEntry q log rawData).2 := by
  unfold classifyEntry
  split_ifs <;> rfl

theorem parseLine_error (lib : Stdlib) (p : LogParser) (line err : String)
    (h : lib.jsonUnmarshal line = .error err) :
    parseLine lib p line = (p, .error ("invalid JSON: " ++ err)) := by
  simp only [parseLine, h]

theorem parseLine_snd (lib : Stdlib) (p q : LogParser) (line : String) :
    (parseLine lib p line).2 = (parseLine lib q line).2 := by
  unfold parseLine
  cases lib.jsonUnmarshal line with
  | error err => rfl
  | ok rawData =>
    simp only
    rw [classifyEntry_snd p q]

theorem parseLine_fst (lib : Stdlib) (p : LogParser) (line : String) :
    (parseLine lib p line).1 =
      match (parseLine lib p line).2 with
      | .ok logEntry =>
        if logEntry.TfReqID ≠ "" then
          { p with stats := { p.stats with HasHTTPRequests := true } }
        else p
      | .error _ => p := by
  unfold parseLine
  cases lib.jsonUnmarshal line with
  | error err => rfl
  | ok rawData =>
    simp only
    rw [classifyEntry_fst]

theorem parseLine_ok (lib : Stdlib) (line : String) (rawData : RawData)
    (h : lib.jsonUnmarshal line = .ok rawData) :
    ∃ logEntry : TerraformLog, ∀ p : LogParser,
      parseLine lib p line =
        (if logEntry.TfReqID ≠ "" then
            { p with stats := { p.stats with HasHTTPRequests := true } }
          else p, .ok logEntry) := by
  have hex : ∃ logEntry, (parseLine lib NewLogParser line).2 = .ok logEntry := by
    simp only [parseLine, h]
    exact ⟨_, rfl⟩
  obtain ⟨logEntry, he⟩ := hex
  refine ⟨logEntry, fun p => ?_⟩
  have h2 : (parseLine lib p line).2 = .ok logEntry := by
    rw [parseLine_snd lib p NewLogParser, he]
  have h1 := parseLine_fst lib p line
  rw [h2] at h1
  exact Prod.ext h1 h2

theorem recordOfLine_ok (lib : Stdlib) (text : String) (rawData : RawData)
    (logEntry : TerraformLog) (hne : trimSpace text ≠ "")
    (h : lib.jsonUnmarshal (trimSpace text) = .ok rawData)
    (hp : (parseLine lib NewLogParser (trimSpace text)).2 = .ok logEntry) :
    recordOfLine lib text = some logEntry := by
  simp only [recordOfLine, hne, if_false, h, hp]

theorem recordOfLine_error (lib : Stdlib) (text err : String)
    (h : lib.jsonUnmarshal (trimSpace text) = .error err) :
    recordOfLine lib text = none := by
  simp only [recordOfLine, h]
  split <;> rfl

/-- The statistics of the parser after the loop of `ParseStream` has read
`lines`, and the result it has built, in terms of the texts that the scanner
yields. -/
theorem parseStreamLoop_spec (lib : Stdlib) (lines : List String) (p : LogParser)
    (result : ParseResult) (lineNumber : Nat) :
    (parseStreamLoop lib lines p result lineNumber).2.Errors
        = result.Errors
          ++ ((scannerTexts lines).enumFrom (lineNumber + 1)).filterMap (errorOfLine lib) ∧
    (parseStreamLoop lib lines p result lineNumber).2.Logs
        = result.Logs ++ (scannerTexts lines).filterMap (recordOfLine lib) ∧
    (parseStreamLoop lib lines p result lineNumber).1.stats.TotalLines
        = p.stats.TotalLines + (scannerTexts lines).length ∧
    (parseStreamLoop lib lines p result lineNumber).1.stats.SuccessLines
        = p.stats.SuccessLines + ((scannerTexts lines).filterMap (recordOfLine lib)).length ∧
    (parseStreamLoop lib lines p result lineNumber).1.stats.ErrorLines
        = p.stats.ErrorLines
          + (((scannerTexts lines).enumFrom (lineNumber + 1)).filterMap (errorOfLine lib)).length ∧
    (parseStreamLoop lib lines p result lineNumber).1.stats.ByLevel
        = ((scannerTexts lines).filterMap (recordOfLine lib)).foldl
            (fun m log => m.add log.Level 1) p.stats.ByLevel ∧
    (parseStreamLoop lib lines p result lineNumber).1.stats.ByModule
        = ((scannerTexts lines).filterMap (recordOfLine lib)).foldl
            (fun m log => if log.Module ≠ "" then m.add log.Module 1 else m) p.stats.ByModule ∧
    (parseStreamLoop lib lines p result lineNumber).1.stats.HasHTTPRequests
        = (p.stats.HasHTTPRequests ||
            ((scannerTexts lines).filterMap (recordOfLine lib)).any
              (fun log => decide (log.TfReqID ≠ ""))) := by
  induction lines generalizing p result lineNumber with
  | nil => simp [parseStreamLoop, scannerTexts]
  | cons raw rest ih =>
    by_cases hlong : MaxScanTokenSize ≤ byteLen raw
    · simp [parseStreamLoop, scannerTexts, hlong]
    · have hscan : scannerTexts (raw :: rest) = dropCR raw :: scannerTexts rest := by
        simp only [scannerTexts, hlong, if_false]
      rw [hscan]
      generalize htext : dropCR raw = text
      by_cases hb : trimSpace text = ""
      · have hr : recordOfLine lib text = none := by simp [recordOfLine, hb]
        have he : errorOfLine lib (lineNumber + 1, text) = none := by simp [errorOfLine, hb]
        simp only [parseStreamLoop, hlong, if_false, htext, hb, if_true, List.enumFrom_cons,
          List.filterMap_cons, hr, he]
        obtain ⟨i1, i2, i3, i4, i5, i6, i7, i8⟩ := ih
          { p with stats := { p.stats with TotalLines := p.stats.TotalLines + 1 } } result
          (lineNumber + 1)
        refine ⟨i1, i2, ?_, i4, i5, i6, i7, i8⟩
        rw [i3]; simp only [List.length_cons]; omega
      · cases hj : lib.jsonUnmarshal (trimSpace text) with
        | error err =>
          have hr : recordOfLine lib text = none := recordOfLine_error lib text err hj
          have he : errorOfLine lib (lineNumber + 1, text) = some
              { LineNumber := lineNumber + 1, Line := trimSpace text,
                Error := "invalid JSON: " ++ err } := by
            simp [errorOfLine, hb, hj]
          simp only [parseStreamLoop, hlong, htext, hb, if_false,
            parseLine_error lib _ _ err hj, List.enumFrom_cons, List.filterMap_cons, hr, he]
          obtain ⟨i1, i2, i3, i4, i5, i6, i7, i8⟩ := ih
            { stats := { p.stats with TotalLines := p.stats.TotalLines + 1,
                                      ErrorLines := p.stats.ErrorLines + 1 } }
            { result with Errors := result.Errors ++
                [{ LineNumber := lineNumber + 1, Line := trimSpace text,
                   Error := "invalid JSON: " ++ err }] }
            (lineNumber + 1)
          refine ⟨?_, i2, ?_, i4, ?_, i6, i7, i8⟩
          · rw [i1]; simp
          · rw [i3]; simp only [List.length_cons]; omega
          · rw [i5]; simp only [List.length_cons]; omega
        | ok rawData =>
          obtain ⟨logEntry, hp⟩ := parseLine_ok lib (trimSpace text) rawData hj
          have hr : recordOfLine lib text = some logEntry :=
            recordOfLine_ok lib text rawData logEntry hb hj (by rw [hp NewLogParser])
          have he : errorOfLine lib (lineNumber + 1, text) = none := by
            simp [errorOfLine, hb, hj]
          simp only [parseStreamLoop, hlong, htext, hb, if_false, hp, List.enumFrom_cons,
            List.filterMap_cons, hr, he]
          obtain ⟨i1, i2, i3, i4, i5, i6, i7, i8⟩ := ih
            (updateStats
              { stats := { (if logEntry.TfReqID ≠ "" then
                  ({ stats := { p.stats with TotalLines := p.stats.TotalLines + 1,
                                             HasHTTPRequests := true } } : LogParser)
                  else { stats := { p.stats with TotalLines := p.stats.TotalLines + 1 } }).stats with
                SuccessLines := (if logEntry.TfReqID ≠ "" then
                  ({ stats := { p.stats with TotalLines := p.stats.TotalLines + 1,
                                             HasHTTPRequests := true } } : LogParser)
                  else { stats := { p.stats with TotalLines := p.stats.TotalLines + 1 } }).stats.SuccessLines + 1 } }
              logEntry)
            { result with Logs := result.Logs ++ [logEntry] }
            (lineNumber + 1)
          refine ⟨i1, ?_, ?_, ?_, ?_, ?_, ?_, ?_⟩
          · rw [i2]; simp
          · rw [i3]; unfold updateStats; split_ifs <;> simp only [List.length_cons] <;> omega
          · rw [i4]; unfold updateStats; split_ifs <;> simp only [List.length_cons] <;> omega
          · rw [i5]; unfold updateStats; split_ifs <;> rfl
          · rw [i6]; unfold updateStats; split_ifs <;> rfl
          · rw [i7]; unfold updateStats; split_ifs <;> simp_all
          · rw [i8]; unfold updateStats; split_ifs <;> simp_all

/-- A line that does not fit the buffer of the scanner ends the loop: the lines
after it, and the line itself, leave no trace. -/
theorem parseStreamLoop_cutoff (lib : Stdlib) (before : List String) (long : String)
    (after : List String) (hlong : MaxScanTokenSize ≤ byteLen long) (p : LogParser)
    (result : ParseResult) (lineNumber : Nat) :
    parseStreamLoop lib (before ++ long :: after) p result lineNumber
      = parseStreamLoop lib before p result lineNumber := by
  induction before generalizing p result lineNumber with
  | nil => simp [parseStreamLoop, hlong]
  | cons raw rest ih => simp only [List.cons_append, parseStreamLoop, List.append_eq, ih]

/-! ## Lemmas on maps and on the recomputed statistics -/

theorem lookup_addEntry (k : String) (c : Nat) (l : List (String × Nat)) (k' : String) :
    (CountMap.addEntry k c l).lookup k' =
      if k' = k then some ((l.lookup k).getD 0 + c) else l.lookup k' := by
  induction l with
  | nil =>
    by_cases h : k' = k
    · subst h; simp [CountMap.addEntry, List.lookup]
    · have hb : (k' == k) = false := by simpa using h
      simp [CountMap.addEntry, List.lookup, h, hb]
  | cons e rest ih =>
    obtain ⟨k0, n⟩ := e
    by_cases h0 : k0 = k
    · subst h0
      by_cases h : k' = k0
      · subst h; simp [CountMap.addEntry, List.lookup]
      · have hb : (k' == k0) = false := by simpa using h
        simp [CountMap.addEntry, List.lookup, h, hb]
    · have h0' : ¬ k = k0 := fun e => h0 e.symm
      have hb0 : (k == k0) = false := by simpa using h0'
      by_cases h : k' = k
      · subst h; simp [CountMap.addEntry, List.lookup, h0, h0', hb0, ih]
      · by_cases h1 : k' = k0
        · subst h1; simp [CountMap.addEntry, List.lookup, h0, h]
        · have hb1 : (k' == k0) = false := by simpa using h1
          simp [CountMap.addEntry, List.lookup, h0, h, h1, hb1, ih]

theorem find_add (m : CountMap) (k : String) (c : Nat) (k' : String) :
    (m.add k c).find k' = if k' = k then some (m.get k + c) else m.find k' :=
  lookup_addEntry k c m.entries k'

theorem calc_foldl (logs : List TerraformLog) (s : ParseStats) :
    (logs.foldl calcStep s).TotalLines = s.TotalLines + logs.length ∧
    (logs.foldl calcStep s).SuccessLines = s.SuccessLines + logs.length ∧
    (logs.foldl calcStep s).ErrorLines = s.ErrorLines ∧
    (logs.foldl calcStep s).ByLevel
      = logs.foldl (fun m log => if log.Level ≠ "" then m.add log.Level 1 else m) s.ByLevel ∧
    (logs.foldl calcStep s).ByModule
      = logs.foldl (fun m log => if log.Module ≠ "" then m.add log.Module 1 else m) s.ByModule ∧
    (logs.foldl calcStep s).HasHTTPRequests
      = (s.HasHTTPRequests || logs.any (fun log => decide (log.TfReqID ≠ ""))) := by
  induction logs generalizing s with
  | nil => simp
  | cons log rest ih =>
    obtain ⟨i1, i2, i3, i4, i5, i6⟩ := ih (calcStep s log)
    simp only [List.foldl_cons, List.length_cons, List.any_cons]
    refine ⟨?_, ?_, ?_, ?_, ?_, ?_⟩
    · rw [i1]; unfold calcStep; split_ifs <;> simp only <;> omega
    · rw [i2]; unfold calcStep; split_ifs <;> simp only <;> omega
    · rw [i3]; unfold calcStep; split_ifs <;> rfl
    · rw [i4]; unfold calcStep; split_ifs <;> simp_all
    · rw [i5]; unfold calcStep; split_ifs <;> simp_all
    · rw [i6]; unfold calcStep; split_ifs <;> simp_all

theorem byLevel_agree (logs : List TerraformLog) (m1 m2 : CountMap)
    (h : ∀ k, k ≠ "" → m1.find k = m2.find k) (k : String) (hk : k ≠ "") :
    (logs.foldl (fun m log => if log.Level ≠ "" then m.add log.Level 1 else m) m1).find k
      = (logs.foldl (fun m log => m.add log.Level 1) m2).find k := by
  induction logs generalizing m1 m2 with
  | nil => exact h k hk
  | cons log rest ih =>
    simp only [List.foldl_cons]
    apply ih
    intro k' hk'
    by_cases hl : log.Level = ""
    · have hne : ¬ k' = log.Level := by rw [hl]; exact hk'
      simp only [hl, ne_eq, not_true_eq_false, if_false, find_add]
      rw [if_neg (by rw [← hl]; exact hne)]
      exact h k' hk'
    · simp only [ne_eq, hl, not_false_eq_true, if_true, find_add, CountMap.get, h _ hl, h k' hk']

theorem line_count (lib : Stdlib) (lines : List String) (n : Nat) :
    lines.length = (lines.filterMap (recordOfLine lib)).length
      + ((lines.enumFrom n).filterMap (errorOfLine lib)).length
      + (lines.filter (fun text => decide (trimSpace text = ""))).length := by
  induction lines generalizing n with
  | nil => simp
  | cons text rest ih =>
    have := ih (n + 1)
    by_cases hb : trimSpace text = ""
    · have hr : recordOfLine lib text = none := by simp [recordOfLine, hb]
      have he : errorOfLine lib (n, text) = none := by simp [errorOfLine, hb]
      simp only [List.enumFrom_cons, List.filterMap_cons, hr, he, List.filter_cons, hb,
        decide_True, if_true, List.length_cons]
      omega
    · cases hj : lib.jsonUnmarshal (trimSpace text) with
      | error err =>
        have hr : recordOfLine lib text = none := recordOfLine_error lib text err hj
        have he : errorOfLine lib (n, text) = some
            { LineNumber := n, Line := trimSpace text, Error := "invalid JSON: " ++ err } := by
          simp [errorOfLine, hb, hj]
        simp only [List.enumFrom_cons, List.filterMap_cons, hr, he, List.filter_cons, hb,
          decide_False, List.length_cons]
        simp only [Bool.false_eq_true, if_false]
        omega
      | ok rawData =>
        obtain ⟨logEntry, hp⟩ := parseLine_ok lib (trimSpace text) rawData hj
        have hr : recordOfLine lib text = some logEntry :=
          recordOfLine_ok lib text rawData logEntry hb hj (by rw [hp NewLogParser])
        have he : errorOfLine lib (n, text) = none := by simp [errorOfLine, hb, hj]
        simp only [List.enumFrom_cons, List.filterMap_cons, hr, he, List.filter_cons, hb,
          decide_False, List.length_cons]
        simp only [Bool.false_eq_true, if_false]
        omega

theorem lookup_none_of_not_mem (l : List (String × Nat)) (k : String)
    (h : k ∉ l.map Prod.fst) : l.lookup k = none := by
  induction l with
  | nil => rfl
  | cons e rest ih =>
    obtain ⟨k0, n⟩ := e
    simp only [List.map_cons, List.mem_cons, not_or] at h
    have hb : (k == k0) = false := by simpa using h.1
    simp [List.lookup, hb, ih h.2]

theorem find_foldl_add (l : List (String × Nat)) (hn : (l.map Prod.fst).Nodup)
    (dst : CountMap) (k : String) :
    (l.foldl (fun acc e => acc.add e.1 e.2) dst).find k
      = addCounts (dst.find k) (l.lookup k) := by
  induction l generalizing dst with
  | nil => cases h : dst.find k <;> simp [List.lookup, addCounts, h]
  | cons e rest ih =>
    obtain ⟨k0, c0⟩ := e
    rw [List.map_cons, List.nodup_cons] at hn
    rw [List.foldl_cons, ih hn.2, find_add]
    by_cases h : k = k0
    · subst h
      have hr : rest.lookup k = none := lookup_none_of_not_mem rest k hn.1
      cases hd : dst.find k <;> simp [List.lookup, addCounts, hr, CountMap.get, hd]
    · have hb : (k == k0) = false := by simpa using h
      simp [List.lookup, h, hb]

theorem find_addAll (dst src : CountMap) (k : String) :
    (dst.addAll src).find k = addCounts (dst.find k) (src.find k) :=
  find_foldl_add src.entries src.nodup dst k

theorem get_addAll (dst src : CountMap) (k : String) :
    (dst.addAll src).get k = dst.get k + src.get k := by
  unfold CountMap.get
  rw [find_addAll]
  cases dst.find k <;> cases src.find k <;> simp [addCounts]

theorem addCounts_right_comm (a b c : Option Nat) :
    addCounts (addCounts a b) c = addCounts (addCounts a c) b := by
  cases a <;> cases b <;> cases c <;> simp [addCounts] <;> omega

theorem ParseStream_cutoff (lib : Stdlib) (p : LogParser) (before : List String)
    (long : String) (after : List String) (hlong : MaxScanTokenSize ≤ byteLen long) :
    ParseStream lib p (before ++ long :: after) = ParseStream lib p before := by
  simp only [ParseStream, parseStreamLoop_cutoff lib before long after hlong]

theorem byteLen_replicate_x (n : Nat) : byteLen (String.mk (List.replicate n 'x')) = n := by
  have hx : utf8Size 'x' = 1 := by decide
  simp [byteLen, List.map_replicate, List.sum_replicate, hx]

theorem dropCRChars_id (l : List Char) (h : ∀ c ∈ l, c.toNat ≠ 13) : dropCRChars l = l := by
  induction l with
  | nil => rfl
  | cons c cs ih =>
    cases cs with
    | nil => simp [dropCRChars, h c (by simp)]
    | cons d ds =>
      have hrest := ih (fun x hx => h x (List.mem_cons_of_mem _ hx))
      show c :: dropCRChars (d :: ds) = c :: d :: ds
      rw [hrest]

theorem dropCR_replicate_x (n : Nat) :
    dropCR (String.mk (List.replicate n 'x')) = String.mk (List.replicate n 'x') := by
  have h : dropCRChars (List.replicate n 'x') = List.replicate n 'x' := by
    apply dropCRChars_id
    intro c hc
    rw [List.eq_of_mem_replicate hc]
    decide
  simp only [dropCR, h]

theorem trimSpace_replicate_x (n : Nat) :
    trimSpace (String.mk (List.replicate (n + 1) 'x')) = String.mk (List.replicate (n + 1) 'x') := by
  have hx : isSpace 'x' = false := by decide
  have h : (List.replicate (n + 1) 'x').dropWhile isSpace = List.replicate (n + 1) 'x' := by
    rw [List.replicate_succ, List.dropWhile_cons, hx]
    rfl
  simp only [trimSpace, h, List.reverse_replicate]

theorem sampleUnmarshal_replicate_x (n : Nat) :
    sampleUnmarshal (String.mk (List.replicate (n + 1) 'x')) = .error "syntax error" := by
  simp only [sampleUnmarshal, List.replicate_succ]
  rfl

theorem ParseStream_lengths (lib : Stdlib) (lines : List String) :
    (ParseStream lib NewLogParser lines).2.Logs.length
      = (ParseStream lib NewLogParser lines).2.Stats.SuccessLines ∧
    (ParseStream lib NewLogParser lines).2.Errors.length
      = (ParseStream lib NewLogParser lines).2.Stats.ErrorLines := by
  obtain ⟨i1, i2, _, i4, i5, _⟩ := parseStreamLoop_spec lib lines NewLogParser {} 0
  simp only [ParseStream, i1, i2, i4, i5]
  simp [NewLogParser]

theorem postLogs_lengths (lib : Stdlib) (cur : ParseResult) (lines : List String)
    (h1 : cur.Logs.length = cur.Stats.SuccessLines)
    (h2 : cur.Errors.length = cur.Stats.ErrorLines) :
    (postLogs lib (some cur) lines).Logs.length
      = (postLogs lib (some cur) lines).Stats.SuccessLines ∧
    (postLogs lib (some cur) lines).Errors.length
      = (postLogs lib (some cur) lines).Stats.ErrorLines := by
  obtain ⟨j1, j2⟩ := ParseStream_lengths lib lines
  simp only [postLogs, updateCurrentResult, List.length_append, h1, h2, j1, j2, and_self]

/-! ## The claims -/

/-- C1. `classifyEntry` returns the first matching category in the order
`http_request` (request id present), `grpc_request` (message contains
`GRPCProvider` or RPC name present), `provider` (module contains `provider`),
`general`; so the result is one of these four values. -/
theorem classifyEntry_category (p : LogParser) (log : TerraformLog) (rawData : RawData) :
    (classifyEntry p log rawData).2 = categoryOf log ∧
    (classifyEntry p log rawData).2 ∈ ["http_request", "grpc_request", "provider", "general"] := by
  have h1 := contains_iff log.Message "GRPCProvider"
  have h2 := contains_iff log.Module "provider"
  unfold classifyEntry categoryOf
  by_cases a : log.TfReqID = ""
  · by_cases b : contains log.Message "GRPCProvider" = true
    · simp [a, b, h1.mp b]
    · have b' : ¬ "GRPCProvider".data <:+: log.Message.data := fun h => b (h1.mpr h)
      by_cases c : log.TfRPC = ""
      · by_cases d : log.Module = ""
        · simp [a, b, b', c, d]
        · by_cases e : contains log.Module "provider" = true
          · simp [a, b, b', c, d, e, h2.mp e]
          · have e' : ¬ "provider".data <:+: log.Module.data := fun h => e (h2.mpr h)
            simp [a, b, b', c, d, e, e']
      · simp [a, b, b', c]
  · simp [a]

/-- C2. Without a limit, `filterLogs` returns the records of the input that
satisfy every supplied criterion, in their original order; with every filter
empty it returns the whole input, and the level filter `ERROR` keeps a record
of level `error`. -/
theorem filterLogs_no_limit (lib : Stdlib) (logs : List TerraformLog)
    (levelFilter sinceFilter untilFilter searchFilter moduleFilter : String) :
    filterLogs lib logs levelFilter sinceFilter untilFilter searchFilter moduleFilter ""
        = logs.filter
            (satisfiesFilters lib levelFilter sinceFilter untilFilter searchFilter moduleFilter) ∧
    filterLogs lib logs "" "" "" "" "" "" = logs ∧
    filterLogs goStd [{ Level := "error" }] "ERROR" "" "" "" "" "" = [{ Level := "error" }] := by
  refine ⟨?_, ?_, by decide⟩
  · rw [filterLogs_eq, atoi_empty]
  · rw [filterLogs_eq, atoi_empty]
    simp [satisfiesFilters]

/-- C3. With `m` matching records: a limit string that `strconv.Atoi` parses as
`n > 0` makes `filterLogs` return the first `min n m` of them, at most `n`
records; an empty limit string, one that is not an integer, and a zero or
negative one make it return all `m`. -/
theorem filterLogs_limit (lib : Stdlib) (logs : List TerraformLog)
    (levelFilter sinceFilter untilFilter searchFilter moduleFilter limitStr : String) :
    atoi "" = none ∧
    filterLogs goStd [{ Message := "a" }, { Message := "b" }, { Message := "c" }] "" "" "" "" "" "1"
      = [{ Message := "a" }] ∧
    match atoi limitStr with
    | some n =>
      if 0 < n then
        filterLogs lib logs levelFilter sinceFilter untilFilter searchFilter moduleFilter limitStr
          = (logs.filter (satisfiesFilters lib levelFilter sinceFilter untilFilter searchFilter
                moduleFilter)).take
              (min n.toNat (logs.filter (satisfiesFilters lib levelFilter sinceFilter untilFilter
                searchFilter moduleFilter)).length) ∧
        ((filterLogs lib logs levelFilter sinceFilter untilFilter searchFilter moduleFilter
            limitStr).length : Int) ≤ n
      else
        filterLogs lib logs levelFilter sinceFilter untilFilter searchFilter moduleFilter limitStr
          = logs.filter (satisfiesFilters lib levelFilter sinceFilter untilFilter searchFilter
              moduleFilter)
    | none =>
      filterLogs lib logs levelFilter sinceFilter untilFilter searchFilter moduleFilter limitStr
        = logs.filter (satisfiesFilters lib levelFilter sinceFilter untilFilter searchFilter
            moduleFilter) := by
  refine ⟨atoi_empty, by decide, ?_⟩
  rw [filterLogs_eq]
  generalize logs.filter (satisfiesFilters lib levelFilter sinceFilter untilFilter searchFilter
    moduleFilter) = matching
  cases atoi limitStr with
  | none => simp
  | some n =>
    by_cases hn : 0 < n
    · simp only [hn, true_and, if_true]
      by_cases hlt : n < (matching.length : Int)
      · have h1 : n.toNat ≤ matching.length := by omega
        simp only [hlt, if_true, List.length_take, Nat.min_eq_left h1]
        exact ⟨trivial, by omega⟩
      · have h1 : matching.length ≤ n.toNat := by omega
        simp only [hlt, if_false, Nat.min_eq_right h1, List.take_length]
        exact ⟨trivial, by omega⟩
    · simp [hn]

/-- C9. Query idempotence: `filterLogs` applied to its own output with the same
filter arguments returns that output. -/
theorem filterLogs_idempotent (lib : Stdlib) (logs : List TerraformLog)
    (levelFilter sinceFilter untilFilter searchFilter moduleFilter limitStr : String) :
    filterLogs lib
        (filterLogs lib logs levelFilter sinceFilter untilFilter searchFilter moduleFilter limitStr)
        levelFilter sinceFilter untilFilter searchFilter moduleFilter limitStr
      = filterLogs lib logs levelFilter sinceFilter untilFilter searchFilter moduleFilter
          limitStr := by
  rw [filterLogs_eq lib logs, filterLogs_eq]
  generalize hm : logs.filter (satisfiesFilters lib levelFilter sinceFilter untilFilter
    searchFilter moduleFilter) = matching
  have hall : ∀ x ∈ matching, satisfiesFilters lib levelFilter sinceFilter untilFilter
      searchFilter moduleFilter x = true := by
    intro x hx
    rw [← hm] at hx
    exact (List.mem_filter.mp hx).2
  have hfm : matching.filter (satisfiesFilters lib levelFilter sinceFilter untilFilter
      searchFilter moduleFilter) = matching := List.filter_eq_self.mpr hall
  cases atoi limitStr with
  | none => simp [hfm]
  | some n =>
    by_cases hc : 0 < n ∧ n < (matching.length : Int)
    · have hft : (matching.take n.toNat).filter (satisfiesFilters lib levelFilter sinceFilter
          untilFilter searchFilter moduleFilter) = matching.take n.toNat :=
        List.filter_eq_self.mpr (fun x hx => hall x (List.mem_of_mem_take hx))
      have hlen : ¬ (0 < n ∧ n < (((matching.take n.toNat).length : Nat) : Int)) := by
        rw [List.length_take]; omega
      have hlen2 : ¬ (n < (((matching.take n.toNat).length : Nat) : Int)) :=
        fun h => hlen ⟨hc.1, h⟩
      simp only [hc, and_self, if_true, hft, hlen2, and_false, if_false]
    · simp only [hc, if_false, hfm]

/-- C10, as stated, fails: with the until bound `2025-01-01`, which parses, a
record with the zero timestamp is kept. -/
theorem zero_timestamp_kept_by_until :
    parseTimeFlexible goStd "2025-01-01" = some 63871286400000000000 ∧
    ({ Message := "m" } : TerraformLog).Timestamp = 0 ∧
    filterLogs goStd [{ Message := "m" }] "" "" "2025-01-01" "" "" "" = [{ Message := "m" }] := by
  decide

/-- C10, amended. A record with the zero timestamp is excluded from the result
of `filterLogs` when a since bound is supplied and parses to an instant after
the zero instant, or an until bound is supplied and parses to an instant before
the zero instant. -/
theorem zero_timestamp_excluded (lib : Stdlib) (logs : List TerraformLog)
    (levelFilter sinceFilter untilFilter searchFilter moduleFilter limitStr : String)
    (log : TerraformLog) (hzero : log.Timestamp = 0)
    (hbound : (sinceFilter ≠ "" ∧ ∃ t, parseTimeFlexible lib sinceFilter = some t ∧ 0 < t) ∨
      (untilFilter ≠ "" ∧ ∃ t, parseTimeFlexible lib untilFilter = some t ∧ t < 0)) :
    log ∉ filterLogs lib logs levelFilter sinceFilter untilFilter searchFilter moduleFilter
      limitStr := by
  have hsat : satisfiesFilters lib levelFilter sinceFilter untilFilter searchFilter moduleFilter
      log = false := by
    unfold satisfiesFilters
    rcases hbound with ⟨hne, t, ht, hpos⟩ | ⟨hne, t, ht, hneg⟩
    · have : ¬ t ≤ log.Timestamp := by rw [hzero]; exact not_le.mpr hpos
      simp [hne, ht, this]
    · have : ¬ log.Timestamp ≤ t := by rw [hzero]; exact not_le.mpr hneg
      simp [hne, ht, this]
  have hnot : log ∉ logs.filter (satisfiesFilters lib levelFilter sinceFilter untilFilter
      searchFilter moduleFilter) := by
    intro h
    have := (List.mem_filter.mp h).2
    rw [hsat] at this
    exact Bool.false_ne_true this
  rw [filterLogs_eq]
  cases atoi limitStr with
  | none => exact hnot
  | some n =>
    dsimp only
    split
    · exact fun h => hnot (List.mem_of_mem_take h)
    · exact hnot

/-- C10, amended, at a sample input: the since bound `2025-01-01` excludes a
record with the zero timestamp. -/
theorem zero_timestamp_excluded_witness :
    ({ Message := "m" } : TerraformLog) ∉
      filterLogs goStd [{ Message := "m" }] "" "2025-01-01" "" "" "" "" :=
  zero_timestamp_excluded goStd [{ Message := "m" }] "" "2025-01-01" "" "" "" ""
    { Message := "m" } rfl
    (Or.inl ⟨by decide, 63871286400000000000, by decide, by decide⟩)


/-- On the texts that the scanner yields, `ParseStream` on a new parser records
one error per text that is not blank and fails to decode, with its 1-based
position and the trimmed text, and one record per text that is not blank and
decodes, all in input order. The line `not json` alone gives no record and one
error with line number 1. -/
theorem ParseStream_scanned_lines (lib : Stdlib) (lines : List String) :
    (ParseStream lib NewLogParser lines).2.Errors
      = ((scannerTexts lines).enumFrom 1).filterMap (errorOfLine lib) ∧
    (ParseStream lib NewLogParser lines).2.Logs
      = (scannerTexts lines).filterMap (recordOfLine lib) ∧
    (∀ text, (recordOfLine lib text).isSome
      = (decide (trimSpace text ≠ "") && decodes lib (trimSpace text))) ∧
    (∀ n text, (errorOfLine lib (n, text)).isSome
      = (decide (trimSpace text ≠ "") && !decodes lib (trimSpace text))) ∧
    (ParseStream goStd NewLogParser ["not json"]).2.Logs = [] ∧
    (ParseStream goStd NewLogParser ["not json"]).2.Errors.map
      (fun e => (e.LineNumber, e.Line)) = [(1, "not json")] := by
  obtain ⟨i1, i2, _⟩ := parseStreamLoop_spec lib lines NewLogParser {} 0
  refine ⟨?_, ?_, ?_, ?_, by decide, by decide⟩
  · simp only [ParseStream, i1]; simp
  · simp only [ParseStream, i2]; simp
  · intro text
    by_cases hb : trimSpace text = ""
    · simp [recordOfLine, hb]
    · cases hj : lib.jsonUnmarshal (trimSpace text) with
      | error err => simp [recordOfLine_error lib text err hj, decodes, hj]
      | ok rawData =>
        obtain ⟨logEntry, hp⟩ := parseLine_ok lib (trimSpace text) rawData hj
        rw [recordOfLine_ok lib text rawData logEntry hb hj (by rw [hp NewLogParser])]
        simp [decodes, hj, hb]
  · intro n text
    by_cases hb : trimSpace text = ""
    · simp [errorOfLine, hb]
    · cases hj : lib.jsonUnmarshal (trimSpace text) <;> simp [errorOfLine, decodes, hj, hb]

/-- C4, at the failing input: a stream of three lines, the second of 65536
characters `x`. The second line is not blank and does not decode, and the third
line decodes, yet `ParseStream` returns the record of the first line only, no
error at all, and has counted one line. -/
theorem ParseStream_stops_at_long_line :
    byteLen (String.mk (List.replicate 65536 'x')) = 65536 ∧
    trimSpace (dropCR (String.mk (List.replicate 65536 'x')))
      = String.mk (List.replicate 65536 'x') ∧
    String.mk (List.replicate 65536 'x') ≠ "" ∧
    decodes goStd (String.mk (List.replicate 65536 'x')) = false ∧
    decodes goStd "\x7b\x7d" = true ∧
    (ParseStream goStd NewLogParser
      ["\x7b\x7d", String.mk (List.replicate 65536 'x'), "\x7b\x7d"]).2.Logs.map
        (fun log => log.RawJSON) = ["\x7b\x7d"] ∧
    (ParseStream goStd NewLogParser
      ["\x7b\x7d", String.mk (List.replicate 65536 'x'), "\x7b\x7d"]).2.Errors = [] ∧
    (ParseStream goStd NewLogParser
      ["\x7b\x7d", String.mk (List.replicate 65536 'x'), "\x7b\x7d"]).2.Stats.TotalLines
        = 1 := by
  have hlen := byteLen_replicate_x 65536
  have hcut : ParseStream goStd NewLogParser
      ["\x7b\x7d", String.mk (List.replicate 65536 'x'), "\x7b\x7d"]
      = ParseStream goStd NewLogParser ["\x7b\x7d"] :=
    ParseStream_cutoff goStd NewLogParser ["\x7b\x7d"] (String.mk (List.replicate 65536 'x'))
      ["\x7b\x7d"] (by rw [hlen]; decide)
  refine ⟨hlen, ?_, ?_, ?_, by decide, ?_, ?_, ?_⟩
  · rw [dropCR_replicate_x]
    exact trimSpace_replicate_x 65535
  · intro h
    have := congrArg byteLen h
    rw [hlen] at this
    exact absurd this (by decide)
  · have := sampleUnmarshal_replicate_x 65535
    simp only [decodes, goStd]
    rw [this]
  · rw [hcut]; decide
  · rw [hcut]; decide
  · rw [hcut]; decide

/-- C5, as stated, fails: for the stream of the single line `not json` the
ingestion statistics count one line and one error, the statistics recomputed
from the records count none. -/
theorem stats_round_trip_differs :
    (ParseStream goStd NewLogParser ["not json"]).2.Stats.TotalLines = 1 ∧
    (ParseStream goStd NewLogParser ["not json"]).2.Stats.ErrorLines = 1 ∧
    (calculateFilteredStats
      (filterLogs goStd (ParseStream goStd NewLogParser ["not json"]).2.Logs
        "" "" "" "" "" "")).TotalLines = 0 ∧
    (calculateFilteredStats
      (filterLogs goStd (ParseStream goStd NewLogParser ["not json"]).2.Logs
        "" "" "" "" "" "")).ErrorLines = 0 := by
  decide

/-- C5, amended. The statistics recomputed from the records of an ingestion
(no filters) agree with the ingestion statistics in `SuccessLines`, in
`ByModule`, in `HasHTTPRequests` and in `ByLevel` at every non-empty level; the
recomputed `TotalLines` is the number of records and the recomputed
`ErrorLines` is zero, while the ingestion `TotalLines` also counts the errors
and the blank lines among the lines read and the ingestion `ErrorLines` counts
the errors. -/
theorem stats_round_trip (lib : Stdlib) (lines : List String) :
    (calculateFilteredStats
      (filterLogs lib (ParseStream lib NewLogParser lines).2.Logs "" "" "" "" "" "")).SuccessLines
      = (ParseStream lib NewLogParser lines).2.Stats.SuccessLines ∧
    (calculateFilteredStats
      (filterLogs lib (ParseStream lib NewLogParser lines).2.Logs "" "" "" "" "" "")).ByModule
      = (ParseStream lib NewLogParser lines).2.Stats.ByModule ∧
    (calculateFilteredStats
      (filterLogs lib (ParseStream lib NewLogParser lines).2.Logs "" "" "" "" ""
        "")).HasHTTPRequests
      = (ParseStream lib NewLogParser lines).2.Stats.HasHTTPRequests ∧
    (∀ k, k ≠ "" →
      (calculateFilteredStats
        (filterLogs lib (ParseStream lib NewLogParser lines).2.Logs "" "" "" "" ""
          "")).ByLevel.find k
        = (ParseStream lib NewLogParser lines).2.Stats.ByLevel.find k) ∧
    (calculateFilteredStats
      (filterLogs lib (ParseStream lib NewLogParser lines).2.Logs "" "" "" "" "" "")).TotalLines
      = (ParseStream lib NewLogParser lines).2.Logs.length ∧
    (calculateFilteredStats
      (filterLogs lib (ParseStream lib NewLogParser lines).2.Logs "" "" "" "" "" "")).ErrorLines
      = 0 ∧
    (ParseStream lib NewLogParser lines).2.Stats.ErrorLines
      = (ParseStream lib NewLogParser lines).2.Errors.length ∧
    (ParseStream lib NewLogParser lines).2.Stats.TotalLines
      = (ParseStream lib NewLogParser lines).2.Logs.length
        + (ParseStream lib NewLogParser lines).2.Errors.length
        + ((scannerTexts lines).filter (fun text => decide (trimSpace text = ""))).length := by
  have hall : filterLogs lib (ParseStream lib NewLogParser lines).2.Logs "" "" "" "" "" ""
      = (ParseStream lib NewLogParser lines).2.Logs := by
    rw [filterLogs_eq, atoi_empty]
    simp [satisfiesFilters]
  rw [hall]
  obtain ⟨i1, i2, i3, i4, i5, i6, i7, i8⟩ := parseStreamLoop_spec lib lines NewLogParser {} 0
  obtain ⟨c1, c2, c3, c4, c5, c6⟩ := calc_foldl (ParseStream lib NewLogParser lines).2.Logs
    { ByLevel := CountMap.empty, ByModule := CountMap.empty }
  have hlogs : (ParseStream lib NewLogParser lines).2.Logs
      = (scannerTexts lines).filterMap (recordOfLine lib) := by
    simp only [ParseStream, i2]; simp
  have herrs : (ParseStream lib NewLogParser lines).2.Errors
      = ((scannerTexts lines).enumFrom 1).filterMap (errorOfLine lib) := by
    simp only [ParseStream, i1]; simp
  have hstats : (ParseStream lib NewLogParser lines).2.Stats
      = (parseStreamLoop lib lines NewLogParser {} 0).1.stats := rfl
  unfold calculateFilteredStats
  rw [c1, c2, c3, c4, c5, c6, hstats, i3, i4, i5, i6, i7, i8, herrs, hlogs]
  refine ⟨?_, ?_, ?_, ?_, ?_, ?_, ?_, ?_⟩
  · simp [NewLogParser]
  · rfl
  · simp [NewLogParser]
  · intro k hk
    exact byLevel_agree _ _ _ (fun _ _ => rfl) k hk
  · simp
  · rfl
  · simp [NewLogParser]
  · have := line_count lib (scannerTexts lines) 1
    simp only [NewLogParser, Nat.zero_add]
    omega

/-- C6. The corpus update of `handleAPILogs` on an existing corpus appends the
new records and errors to the old ones, sums `TotalLines`, `SuccessLines` and
`ErrorLines`, and sums the counts of `ByLevel` and `ByModule` key by key, a key
of one side only keeping its count. Hence merging two results in either order
gives the same counters, whereas the order of the records can differ. -/
theorem updateCurrentResult_merge (cur result : ParseResult) :
    (updateCurrentResult (some cur) result).Logs = cur.Logs ++ result.Logs ∧
    (updateCurrentResult (some cur) result).Errors = cur.Errors ++ result.Errors ∧
    (updateCurrentResult (some cur) result).Stats.TotalLines
      = cur.Stats.TotalLines + result.Stats.TotalLines ∧
    (updateCurrentResult (some cur) result).Stats.SuccessLines
      = cur.Stats.SuccessLines + result.Stats.SuccessLines ∧
    (updateCurrentResult (some cur) result).Stats.ErrorLines
      = cur.Stats.ErrorLines + result.Stats.ErrorLines ∧
    (∀ k, (updateCurrentResult (some cur) result).Stats.ByLevel.get k
      = cur.Stats.ByLevel.get k + result.Stats.ByLevel.get k) ∧
    (∀ k, (updateCurrentResult (some cur) result).Stats.ByModule.get k
      = cur.Stats.ByModule.get k + result.Stats.ByModule.get k) ∧
    (∀ k, (updateCurrentResult (some cur) result).Stats.ByLevel.find k
      = addCounts (cur.Stats.ByLevel.find k) (result.Stats.ByLevel.find k)) ∧
    (∀ k, (updateCurrentResult (some cur) result).Stats.ByModule.find k
      = addCounts (cur.Stats.ByModule.find k) (result.Stats.ByModule.find k)) ∧
    (∀ a b : ParseResult,
      (updateCurrentResult (some (updateCurrentResult (some cur) a)) b).Stats.TotalLines
        = (updateCurrentResult (some (updateCurrentResult (some cur) b)) a).Stats.TotalLines ∧
      (updateCurrentResult (some (updateCurrentResult (some cur) a)) b).Stats.SuccessLines
        = (updateCurrentResult (some (updateCurrentResult (some cur) b)) a).Stats.SuccessLines ∧
      (updateCurrentResult (some (updateCurrentResult (some cur) a)) b).Stats.ErrorLines
        = (updateCurrentResult (some (updateCurrentResult (some cur) b)) a).Stats.ErrorLines ∧
      (∀ k, (updateCurrentResult (some (updateCurrentResult (some cur) a)) b).Stats.ByLevel.find k
        = (updateCurrentResult (some (updateCurrentResult (some cur) b)) a).Stats.ByLevel.find
            k) ∧
      (∀ k, (updateCurrentResult (some (updateCurrentResult (some cur) a)) b).Stats.ByModule.find k
        = (updateCurrentResult (some (updateCurrentResult (some cur) b)) a).Stats.ByModule.find
            k)) ∧
    (updateCurrentResult (some (updateCurrentResult (some {}) { Logs := [{ Message := "a" }] }))
        { Logs := [{ Message := "b" }] }).Logs
      ≠ (updateCurrentResult (some (updateCurrentResult (some {}) { Logs := [{ Message := "b" }] }))
          { Logs := [{ Message := "a" }] }).Logs := by
  refine ⟨rfl, rfl, rfl, rfl, rfl, fun k => get_addAll _ _ k, fun k => get_addAll _ _ k,
    fun k => find_addAll _ _ k, fun k => find_addAll _ _ k, ?_, by decide⟩
  intro a b
  refine ⟨?_, ?_, ?_, ?_, ?_⟩
  · simp only [updateCurrentResult]; omega
  · simp only [updateCurrentResult]; omega
  · simp only [updateCurrentResult]; omega
  · intro k
    simp only [updateCurrentResult, find_addAll]
    exact addCounts_right_comm _ _ _
  · intro k
    simp only [updateCurrentResult, find_addAll]
    exact addCounts_right_comm _ _ _

/-- C7. After a first ingestion and any number of further ingestions merged in
as `handleAPILogs` does, each by `ParseStream` on a new parser, the corpus has
as many records as `SuccessLines` and as many errors as `ErrorLines`. -/
theorem corpus_lengths (lib : Stdlib) (first : List String) (more : List (List String)) :
    (corpusAfter lib first more).Logs.length = (corpusAfter lib first more).Stats.SuccessLines ∧
    (corpusAfter lib first more).Errors.length
      = (corpusAfter lib first more).Stats.ErrorLines := by
  unfold corpusAfter
  have h0 := ParseStream_lengths lib first
  have hinit : (postLogs lib none first).Logs.length = (postLogs lib none first).Stats.SuccessLines ∧
      (postLogs lib none first).Errors.length = (postLogs lib none first).Stats.ErrorLines := h0
  generalize postLogs lib none first = cur at hinit
  induction more generalizing cur with
  | nil => exact hinit
  | cons lines rest ih =>
    rw [List.foldl_cons]
    exact ih _ (postLogs_lengths lib cur lines hinit.1 hinit.2)

/-- C8, at the failing input: after a first ingestion without request id and a
second one with a request id, the flag `HasHTTPRequests` of the corpus is
false although a record of the corpus has a request id, and recomputation over
the records gives true. -/
theorem corpus_flag_not_merged :
    (corpusAfter goStd ["\x7b\"@level\":\"info\"\x7d"]
      [["\x7b\"tf_req_id\":\"r1\"\x7d"]]).Stats.HasHTTPRequests = false ∧
    (corpusAfter goStd ["\x7b\"@level\":\"info\"\x7d"]
      [["\x7b\"tf_req_id\":\"r1\"\x7d"]]).Logs.map (fun log => log.TfReqID) = ["", "r1"] ∧
    (calculateFilteredStats (corpusAfter goStd ["\x7b\"@level\":\"info\"\x7d"]
      [["\x7b\"tf_req_id\":\"r1\"\x7d"]]).Logs).HasHTTPRequests = true := by
  decide

/-- C11. A since string, and likewise an until string, that `parseTimeFlexible`
rejects is treated as absent: `filterLogs` returns the list it returns with
that string replaced by the empty string, whatever the other filters are. -/
theorem filterLogs_rejected_bound (lib : Stdlib) (logs : List TerraformLog)
    (levelFilter sinceFilter untilFilter searchFilter moduleFilter limitStr rejected : String)
    (hrej : parseTimeFlexible lib rejected = none) :
    filterLogs lib logs levelFilter rejected untilFilter searchFilter moduleFilter limitStr
      = filterLogs lib logs levelFilter "" untilFilter searchFilter moduleFilter limitStr ∧
    filterLogs lib logs levelFilter sinceFilter rejected searchFilter moduleFilter limitStr
      = filterLogs lib logs levelFilter sinceFilter "" searchFilter moduleFilter limitStr := by
  have hs : satisfiesFilters lib levelFilter rejected untilFilter searchFilter moduleFilter
      = satisfiesFilters lib levelFilter "" untilFilter searchFilter moduleFilter := by
    funext log
    simp [satisfiesFilters, hrej]
  have hu : satisfiesFilters lib levelFilter sinceFilter rejected searchFilter moduleFilter
      = satisfiesFilters lib levelFilter sinceFilter "" searchFilter moduleFilter := by
    funext log
    simp [satisfiesFilters, hrej]
  refine ⟨?_, ?_⟩
  · rw [filterLogs_eq, filterLogs_eq, hs]
  · rw [filterLogs_eq, filterLogs_eq, hu]

/-- C11 at a sample input: the string `yesterday` is rejected, and as a since or
an until bound it leaves the query as it is without the bound. -/
theorem filterLogs_rejected_bound_witness :
    parseTimeFlexible goStd "yesterday" = none ∧
    filterLogs goStd [{ Message := "a" }, { Message := "b", Timestamp := 5 }]
        "" "yesterday" "2025-01-01" "" "" "1"
      = filterLogs goStd [{ Message := "a" }, { Message := "b", Timestamp := 5 }]
        "" "" "2025-01-01" "" "" "1" ∧
    filterLogs goStd [{ Message := "a" }, { Message := "b", Timestamp := 5 }]
        "" "0001-01-01" "yesterday" "" "" "1"
      = filterLogs goStd [{ Message := "a" }, { Message := "b", Timestamp := 5 }]
        "" "0001-01-01" "" "" "" "1" :=
  ⟨by decide,
    filterLogs_rejected_bound goStd [{ Message := "a" }, { Message := "b", Timestamp := 5 }]
      "" "0001-01-01" "2025-01-01" "" "" "1" "yesterday" (by decide)⟩

/-- C12, as stated, fails: the timestamp string `2025-01-01` is accepted by
`parseTimeFlexible` (date-only format), yet the record that `parseLine` builds
from a line with that `@timestamp` has the zero timestamp. -/
theorem parseLine_timestamp_not_flexible :
    sampleUnmarshal "\x7b\"@timestamp\":\"2025-01-01\"\x7d"
      = .ok [("@timestamp", JVal.str "2025-01-01")] ∧
    parseTimeFlexible goStd "2025-01-01" = some 63871286400000000000 ∧
    goStd.timeParse RFC3339 "2025-01-01" = none ∧
    (parseLine goStd NewLogParser "\x7b\"@timestamp\":\"2025-01-01\"\x7d").2.toOption.map
      (fun logEntry => logEntry.Timestamp) = some 0 := by
  refine ⟨rfl, by decide, by decide, by decide⟩

/-- C12, amended. For a line that decodes to an object whose `@timestamp` is a
non-empty string `s`, `parseLine` returns a record and no error, and the
timestamp of the record is the result of `time.Parse` with the layout
`time.RFC3339` on `s`, the zero value when that fails; a result of that layout
is also the result of `parseTimeFlexible` on `s`. -/
theorem parseLine_timestamp (lib : Stdlib) (p : LogParser) (line : String) (rawData : RawData)
    (hdec : lib.jsonUnmarshal line = .ok rawData)
    (hts : getString rawData "@timestamp" ≠ "") :
    (∃ logEntry, (parseLine lib p line).2 = .ok logEntry ∧
      logEntry.Timestamp = (lib.timeParse RFC3339 (getString rawData "@timestamp")).getD 0) ∧
    (∀ t, lib.timeParse RFC3339 (getString rawData "@timestamp") = some t →
      parseTimeFlexible lib (getString rawData "@timestamp") = some t) := by
  refine ⟨?_, ?_⟩
  · simp only [parseLine, hdec]
    refine ⟨_, rfl, ?_⟩
    simp only [hts, ne_eq, not_false_eq_true, if_true]
    cases lib.timeParse RFC3339 (getString rawData "@timestamp") <;> rfl
  · intro t ht
    simp [parseTimeFlexible, formats, List.findSome?, ht]

/-- C12, amended, at sample inputs: an offset-qualified timestamp is stored, a
date-only one leaves the zero value. -/
theorem parseLine_timestamp_witness :
    (∃ logEntry,
      (parseLine goStd NewLogParser
        "\x7b\"@timestamp\":\"2025-09-09T15:31:32.757289+03:00\"\x7d").2 = .ok logEntry ∧
      logEntry.Timestamp
        = (goStd.timeParse RFC3339
            (getString [("@timestamp", JVal.str "2025-09-09T15:31:32.757289+03:00")]
              "@timestamp")).getD 0) ∧
    (∀ t,
      goStd.timeParse RFC3339
          (getString [("@timestamp", JVal.str "2025-09-09T15:31:32.757289+03:00")]
            "@timestamp") = some t →
      parseTimeFlexible goStd
          (getString [("@timestamp", JVal.str "2025-09-09T15:31:32.757289+03:00")]
            "@timestamp") = some t) :=
  parseLine_timestamp goStd NewLogParser
    "\x7b\"@timestamp\":\"2025-09-09T15:31:32.757289+03:00\"\x7d"
    [("@timestamp", JVal.str "2025-09-09T15:31:32.757289+03:00")] rfl (by decide)

end TerraformLogParser
